import Mathlib

/-!
# Verification of the `Eternity` tiered commitment accumulator

Shallow embedding of `src/src/eternity.rs` (the `Eternity` type and its
operations `insert`, `len`, `hash`, `witness`, `forget`).  The generic
`Tier` (AuthTree) primitive and the `Epoch`/`Block` module (`epoch.rs`)
are not part of the provided sources, so those parts are modelled from
the specification's contract (§3, §4.1, §4.3) and are marked as such.

Machine integers are modelled as `Nat` with explicit `% 2 ^ 32`
truncation where the Rust code shifts in 32-bit arithmetic.  The
`HashedMap` indices are modelled as functions `Fq → Option Nat`
(`extend` overwrites on key collision, `remove` deletes a key).
Panics (`expect`) are modelled as the `.error` branch of `Except`.
-/

namespace Penumbra

/-- The domain field element (value commitment); only equality and
hashing are consumed from it, so it is modelled as `Nat`. -/
abbrev Fq := Nat

/-- A structural model of digests: `ofFq` is the leaf digest of a
value (`Hash::of`), `node` is the root digest of one tier computed
from its children's digests.  Pruning a child to its digest therefore
preserves every enclosing tier's digest by construction. -/
inductive Hash where
  | ofFq : Fq → Hash
  | node : List Hash → Hash

/-- `Insert<T>`: keep the full substructure or retain only a summary
digest. -/
inductive Insert (T : Type) where
  | hash : Hash → Insert T
  | keep : T → Insert T

/-- `Insert::map`, applying a function to the kept substructure. -/
def Insert.map (f : α → β) : Insert α → Insert β
  | .hash h => .hash h
  | .keep t => .keep (f t)

/-- An index map `HashedMap<Fq, _>`, modelled extensionally. -/
abbrev IndexMap := Fq → Option Nat

/-- The empty map (`Default::default()`). -/
def emptyMap : IndexMap := fun _ => none

/-- `HashedMap::extend`: entries of the second map overwrite entries
of the first on key collision. -/
def extendMap (m m' : IndexMap) : IndexMap :=
  fun k => match m' k with
    | some v => some v
    | none => m k

/-- `HashedMap::remove` of a single key. -/
def removeKey (m : IndexMap) (v : Fq) : IndexMap :=
  fun k => if k = v then none else m k

/-- Modelled from the spec: each tier's AuthTree holds at most 65,536
children (INV3, §4.1). -/
def tierCapacity : Nat := 65536

/-- Modelled from the spec: a tier's AuthTree is its append-only list
of children, each either kept or pruned to a digest; the local length
is the position the next insertion will occupy (§3) and the focus is
the open/rightmost child (§4.1). -/
abbrev TierItem := List (Insert Fq)

/-- The middle tier: an epoch's inner AuthTree of blocks. -/
abbrev TierBlock := List (Insert TierItem)

/-- The top tier: the eternity's inner AuthTree of epochs. -/
abbrev TierEpoch := List (Insert TierBlock)

/-- Modelled from the spec: AuthTree `insert` appends the child at the
next position, or rejects it unchanged when the tier already holds
65,536 children (§4.1, INV3, atomic failure). -/
def tierInsert (t : List α) (x : α) : Except α (List α) :=
  if t.length < tierCapacity then .ok (t ++ [x]) else .error x

/-- Digest contributed by one child: a pruned child contributes its
stored summary, a kept child contributes the digest of its content. -/
def insertHash (f : α → Hash) : Insert α → Hash
  | .hash h => h
  | .keep t => f t

/-- Digest of an item leaf (`Hash::of(item)`). -/
def itemHash (v : Fq) : Hash := Hash.ofFq v

/-- Modelled from the spec: a tier's root digest is a pure function of
its children's digests (§4.1). -/
def tierItemHash (t : TierItem) : Hash := Hash.node (t.map (insertHash itemHash))

/-- Root digest of an epoch's inner tier. -/
def tierBlockHash (t : TierBlock) : Hash := Hash.node (t.map (insertHash tierItemHash))

/-- Root digest of the eternity's inner tier. -/
def tierEpochHash (t : TierEpoch) : Hash := Hash.node (t.map (insertHash tierBlockHash))

/-- `index::within::Eternity`: the composite (epoch, block, item)
address. -/
structure WithinEternity where
  epoch : Nat
  block : Nat
  item : Nat

/-- `Proof<Eternity>`: composite index, authentication path, leaf. -/
structure Proof where
  index : WithinEternity
  auth_path : List (List Hash)
  leaf : Fq

/-- Modelled from the spec: the sibling digests a tier contributes to
an authentication path at child position `i`. -/
def siblingHashes (l : List Hash) (i : Nat) : List Hash :=
  l.take i ++ l.drop (i + 1)

/-- Modelled from the spec: AuthTree `witness` at a composite address
returns `none` iff some slot along the path is empty or pruned;
otherwise it returns the authentication path (one component per tier,
the full three-tier depth) together with the leaf digest (§4.1). -/
def tierWitness (t : TierEpoch) (ix : WithinEternity) : Option (List (List Hash) × Hash) :=
  match t[ix.epoch]? with
  | some (Insert.keep ep) =>
    match ep[ix.block]? with
    | some (Insert.keep bl) =>
      match bl[ix.item]? with
      | some (Insert.keep v) =>
        some ([siblingHashes (t.map (insertHash tierBlockHash)) ix.epoch,
               siblingHashes (ep.map (insertHash tierItemHash)) ix.block,
               siblingHashes (bl.map (insertHash itemHash)) ix.item],
              itemHash v)
      | _ => none
    | _ => none
  | _ => none

/-- Modelled from the spec: AuthTree `forget` at a composite address
prunes the addressed kept leaf to its digest and returns `true`; it
returns `false` leaving the tree unchanged when any slot along the
path is empty or pruned (§4.1). -/
def tierForget (t : TierEpoch) (ix : WithinEternity) : TierEpoch × Bool :=
  match t[ix.epoch]? with
  | some (Insert.keep ep) =>
    match ep[ix.block]? with
    | some (Insert.keep bl) =>
      match bl[ix.item]? with
      | some (Insert.keep v) =>
        (t.set ix.epoch
          (.keep (ep.set ix.block
            (.keep (bl.set ix.item (.hash (itemHash v)))))), true)
      | _ => (t, false)
    | _ => (t, false)
  | _ => (t, false)

/-- `Epoch` as destructured by `Eternity::insert`: inner AuthTree of
blocks plus its block and item indices. -/
structure Epoch where
  inner : TierBlock
  block_index : IndexMap
  item_index : IndexMap

/-- Modelled from the spec: `Block` = AuthTree of items plus its item
index (§2); `epoch.rs` is not among the provided sources. -/
structure Block where
  inner : TierItem
  item_index : IndexMap

/-- The `Eternity`: three auxiliary indices plus the nested inner
tree. -/
structure Eternity where
  epoch_index : IndexMap
  block_index : IndexMap
  item_index : IndexMap
  inner : TierEpoch

/-- `Eternity::new` (`Default`): everything empty. -/
def Eternity.new : Eternity := ⟨emptyMap, emptyMap, emptyMap, []⟩

/-- `Eternity::insert`: decompose the epoch, attempt the tier insert
(atomically failing with the reconstructed original), and on success
merge the epoch's indices upward, mapping every item of the epoch to
the slot the epoch landed in.  The mutated receiver is returned as
the first component. -/
def Eternity.insert (s : Eternity) (epoch : Insert Epoch) :
    Eternity × Except (Insert Epoch) Unit :=
  let epoch_slot := s.inner.length
  let dec : Insert TierBlock × IndexMap × IndexMap :=
    match epoch with
    | .hash h => (.hash h, emptyMap, emptyMap)
    | .keep e => (.keep e.inner, e.block_index, e.item_index)
  match tierInsert s.inner dec.1 with
  | .error ep => (s, .error (ep.map fun inner => Epoch.mk inner dec.2.1 dec.2.2))
  | .ok inner' =>
    ({ epoch_index := fun k =>
         if (dec.2.2 k).isSome then some epoch_slot else s.epoch_index k
     , block_index := extendMap s.block_index dec.2.1
     , item_index := extendMap s.item_index dec.2.2
     , inner := inner' }, .ok ())

/-- `u32::MAX`. -/
def u32MAX : Nat := 2 ^ 32 - 1

/-- `u16::MAX`. -/
def u16MAX : Nat := 2 ^ 16 - 1

/-- `Eternity::len`: the epoch count shifted by 32, plus the focus
contribution shifted by 16 *in 32-bit arithmetic* (the shift truncates
modulo `2 ^ 32` before widening to `u64`). -/
def Eternity.len (s : Eternity) : Nat :=
  s.inner.length * 2 ^ 32 +
    ((match s.inner.getLast? with
      | none => 0
      | some (.hash _) => u32MAX
      | some (.keep epoch) =>
        match epoch.getLast? with
        | none => 0
        | some (.hash _) => u16MAX
        | some (.keep block) => block.length) * 2 ^ 16) % 2 ^ 32

/-- `Eternity::is_empty`. -/
def Eternity.is_empty (s : Eternity) : Bool := s.inner.isEmpty

/-- `Eternity::hash`: delegates to the inner tree's root digest;
caching is an operational optimisation with no observable content. -/
def Eternity.hash (s : Eternity) : Hash := tierEpochHash s.inner

/-- `Eternity::witness`: look up the three indices (the `expect`
failures on the block and item indices are modelled as `.error`),
compose the address, delegate to the tree witness, and wrap the
result. -/
def Eternity.witness (s : Eternity) (item : Fq) : Except String (Option Proof) :=
  match s.epoch_index item with
  | none => .ok none
  | some this_epoch =>
    match s.block_index item with
    | none => .error "if item is present in the epoch index, it must be present in the block index"
    | some this_block =>
      match s.item_index item with
      | none => .error "if item is present in block index, it must be present in item index"
      | some this_item =>
        let index : WithinEternity := ⟨this_epoch, this_block, this_item⟩
        match tierWitness s.inner index with
        | none => .ok none
        | some (auth_path, _leaf) => .ok (some ⟨index, auth_path, item⟩)

/-- `Eternity::forget`: look up the three indices (the `expect`
failures on the block and epoch indices are modelled as `.error`),
prune the addressed leaf in the inner tree, remove the value from all
three indices, and report whether it was present beforehand. -/
def Eternity.forget (s : Eternity) (item : Fq) : Except String (Eternity × Bool) :=
  match s.item_index item with
  | some this_item =>
    match s.block_index item with
    | none => .error "if item index contains item, then block index must contain item"
    | some this_block =>
      match s.epoch_index item with
      | none => .error "if item index contains item, then epoch index must contain item"
      | some this_epoch =>
        let index : WithinEternity := ⟨this_epoch, this_block, this_item⟩
        let forgotten := tierForget s.inner index
        .ok ({ epoch_index := removeKey s.epoch_index item
             , block_index := removeKey s.block_index item
             , item_index := removeKey s.item_index item
             , inner := forgotten.1 }, true)
  | none => .ok (s, false)

/-- Modelled from the spec: `Epoch::insert` mirrors `Eternity::insert`
one level down (§4.3): decompose the block, attempt the tier insert
(atomic failure), and on success record every item of the block into
the epoch's block index at the slot the block landed in and merge the
block's item index verbatim. -/
def Epoch.insert (e : Epoch) (block : Insert Block) :
    Epoch × Except (Insert Block) Unit :=
  let block_slot := e.inner.length
  let dec : Insert TierItem × IndexMap :=
    match block with
    | .hash h => (.hash h, emptyMap)
    | .keep b => (.keep b.inner, b.item_index)
  match tierInsert e.inner dec.1 with
  | .error bl => (e, .error (bl.map fun inner => Block.mk inner dec.2))
  | .ok inner' =>
    ({ inner := inner'
     , block_index := fun k =>
         if (dec.2 k).isSome then some block_slot else e.block_index k
     , item_index := extendMap e.item_index dec.2 }, .ok ())

/-- Modelled from the spec: AuthTree `forget` for the two-level epoch
tree (§4.1), mirroring the three-level one. -/
def epochTierForget (t : TierBlock) (block item : Nat) : TierBlock × Bool :=
  match t[block]? with
  | some (Insert.keep bl) =>
    match bl[item]? with
    | some (Insert.keep v) =>
      (t.set block (.keep (bl.set item (.hash (itemHash v)))), true)
    | _ => (t, false)
  | _ => (t, false)

/-- Modelled from the spec: `Epoch::forget` mirrors `Eternity::forget`
one level down (§4.3): look up both indices (absence of the block
index entry for an item-indexed value is a fatal breach), prune the
addressed leaf, and remove the value from both indices. -/
def Epoch.forget (e : Epoch) (item : Fq) : Except String (Epoch × Bool) :=
  match e.item_index item with
  | some this_item =>
    match e.block_index item with
    | none => .error "if item index contains item, then block index must contain item"
    | some this_block =>
      let pruned := epochTierForget e.inner this_block this_item
      .ok ({ inner := pruned.1
           , block_index := removeKey e.block_index item
           , item_index := removeKey e.item_index item }, true)
  | none => .ok (e, false)

/-- `Epoch::new`: everything empty. -/
def Epoch.new : Epoch := ⟨[], emptyMap, emptyMap⟩

/-- INV1 at the eternity level: a value present in the item index is
present in the block index and in the epoch index. -/
def EternityINV1 (s : Eternity) : Prop :=
  ∀ v, (s.item_index v).isSome → (s.block_index v).isSome ∧ (s.epoch_index v).isSome

/-- INV1 at the epoch level: a value present in the item index is
present in the block index. -/
def EpochINV1 (e : Epoch) : Prop :=
  ∀ v, (e.item_index v).isSome → (e.block_index v).isSome

/-- Epochs reachable through the epoch API (blocks inserted whole,
values forgotten). -/
inductive EpochReachable : Epoch → Prop where
  | new : EpochReachable Epoch.new
  | insert {e e' : Epoch} {b : Insert Block} :
      EpochReachable e → (Epoch.insert e b).1 = e' → EpochReachable e'
  | forget {e e' : Epoch} {v : Fq} {r : Epoch × Bool} :
      EpochReachable e → Epoch.forget e v = .ok r → r.1 = e' → EpochReachable e'

/-- Eternity states reachable through the public API: epochs inserted
whole (pruned, or kept and themselves built through the epoch API),
and values forgotten. -/
inductive EternityReachable : Eternity → Prop where
  | new : EternityReachable Eternity.new
  | insertHash {s s' : Eternity} {h : Hash} :
      EternityReachable s → (Eternity.insert s (.hash h)).1 = s' → EternityReachable s'
  | insertKeep {s s' : Eternity} {e : Epoch} :
      EternityReachable s → EpochReachable e →
      (Eternity.insert s (.keep e)).1 = s' → EternityReachable s'
  | forget {s s' : Eternity} {v : Fq} {r : Eternity × Bool} :
      EternityReachable s → Eternity.forget s v = .ok r → r.1 = s' → EternityReachable s'

/-! ## Helper lemmas -/

/-- Overwriting a list slot with an element having the same image
under `f` does not change the mapped list. -/
theorem map_set_same (f : α → β) (l : List α) (i : Nat) (a b : α)
    (hget : l[i]? = some b) (hf : f a = f b) : (l.set i a).map f = l.map f := by
  induction l generalizing i with
  | nil => simp at hget
  | cons x xs ih =>
    cases i with
    | zero =>
      simp only [List.getElem?_cons_zero, Option.some.injEq] at hget
      subst hget
      simp [hf]
    | succ n =>
      simp only [List.getElem?_cons_succ] at hget
      simp [ih n hget]

/-- Pruning a leaf through `tierForget` never changes the root digest
of the three-tier tree. -/
theorem tierForget_hash (t : TierEpoch) (ix : WithinEternity) :
    tierEpochHash (tierForget t ix).1 = tierEpochHash t := by
  unfold tierForget
  split
  · rename_i ep heq
    split
    · rename_i bl heq2
      split
      · rename_i v heq3
        simp only [tierEpochHash]
        rw [map_set_same (insertHash tierBlockHash) t ix.epoch _ _ heq]
        simp only [insertHash, tierBlockHash]
        rw [map_set_same (insertHash tierItemHash) ep ix.block _ _ heq2]
        simp only [insertHash, tierItemHash]
        rw [map_set_same (insertHash itemHash) bl ix.item _ _ heq3]
        rfl
      · rfl
    · rfl
  · rfl

/-! ## Concrete states used as witnesses and counterexamples -/

/-- A one-epoch, one-block, one-item eternity state: the inner tree
holds a single kept epoch whose single kept block holds the single
item `7`, and all three indices resolve `7` to position `(0, 0, 0)`. -/
def sIndexed : Eternity :=
  ⟨fun k => if k = 7 then some 0 else none,
   fun k => if k = 7 then some 0 else none,
   fun k => if k = 7 then some 0 else none,
   [Insert.keep [Insert.keep [Insert.keep 7]]]⟩

/-- `sIndexed` after forgetting `7`: the leaf is pruned to its digest
and `7` is removed from all three indices. -/
def sIndexedForgotten : Eternity :=
  ⟨removeKey sIndexed.epoch_index 7, removeKey sIndexed.block_index 7,
   removeKey sIndexed.item_index 7,
   [Insert.keep [Insert.keep [Insert.hash (Hash.ofFq 7)]]]⟩

/-- An eternity whose rightmost (open) epoch is pruned to a summary
digest. -/
def sPrunedOpen : Eternity :=
  ⟨emptyMap, emptyMap, emptyMap, [Insert.hash (Hash.node [])]⟩

/-- A full eternity: 65,536 epochs already inserted (all pruned). -/
def fullEternity : Eternity :=
  ⟨emptyMap, emptyMap, emptyMap, List.replicate 65536 (Insert.hash (Hash.node []))⟩

/-! ## Claims -/

/-- Claim C1 (code bug evaluation): on the eternity holding one kept
epoch with one kept block containing the single item `7` — that is,
`e = 0` full epochs, an open epoch with `b = 0` full blocks, and an
open kept block holding `i = 1` item — the code returns
`2 ^ 32 + 2 ^ 16`, not the `e * 2 ^ 32 + b * 2 ^ 16 + i = 1` that the
claimed formula (and the function's own doc comment, which promises
the item count of the latest block as an un-shifted summand) demands:
the epoch count includes the open epoch and the open block's item
count is shifted left by 16, so the low 16 bits of `len()` are always
zero. -/
theorem Eternity.len_one_item_evaluates_to_shifted :
    Eternity.len sIndexed = 2 ^ 32 + 2 ^ 16 ∧ Eternity.len sIndexed ≠ 1 := by
  constructor
  · rfl
  · intro h
    simp only [show Eternity.len sIndexed = 2 ^ 32 + 2 ^ 16 from rfl] at h
    omega

/-- Claim C2: when the eternity is full, `insert` fails atomically:
it returns `Err` carrying the original `Insert<Epoch>` reconstructed
unchanged, and the post-state — in particular the three indices and
`hash()` — is identical to the pre-state. -/
theorem Eternity.insert_full_atomic (s : Eternity) (ep : Insert Epoch)
    (hfull : ¬ s.inner.length < tierCapacity) :
    Eternity.insert s ep = (s, .error ep) ∧
      (Eternity.insert s ep).1.epoch_index = s.epoch_index ∧
      (Eternity.insert s ep).1.block_index = s.block_index ∧
      (Eternity.insert s ep).1.item_index = s.item_index ∧
      (Eternity.insert s ep).1.hash = s.hash := by
    have hmain : Eternity.insert s ep = (s, .error ep) := by
      unfold Eternity.insert tierInsert
      cases ep with
      | hash h => simp [hfull, Insert.map]
      | keep e => simp [hfull, Insert.map]
    exact ⟨hmain, by rw [hmain], by rw [hmain], by rw [hmain], by rw [hmain]⟩

/-- Witness for claim C2 at a concrete full eternity. -/
theorem Eternity.insert_full_atomic_witness :
    Eternity.insert fullEternity (.hash (Hash.node [])) =
      (fullEternity, .error (.hash (Hash.node []))) :=
  (Eternity.insert_full_atomic fullEternity (.hash (Hash.node []))
    (by rw [show fullEternity.inner = List.replicate 65536 (Insert.hash (Hash.node [])) from rfl,
            List.length_replicate, tierCapacity]
        omega)).1

/-- Claim C4: `forget` never changes `hash()`: whenever the call
completes (returning either `true` or `false`), the root digest of the
resulting state equals the root digest of the original state. -/
theorem Eternity.forget_preserves_hash (s : Eternity) (v : Fq) (s' : Eternity) (b : Bool)
    (h : Eternity.forget s v = .ok (s', b)) : s'.hash = s.hash := by
    unfold Eternity.forget at h
    split at h
    case _ i hii =>
      split at h
      case _ => exact absurd h (by simp)
      case _ bl hbl =>
        split at h
        case _ => exact absurd h (by simp)
        case _ e he =>
          simp only [Except.ok.injEq, Prod.mk.injEq] at h
          rw [← h.1]
          simp only [Eternity.hash]
          exact tierForget_hash s.inner _
    case _ hii =>
      simp only [Except.ok.injEq, Prod.mk.injEq] at h
      rw [← h.1]

/-- Witness for claim C4: forgetting the item `7` of `sIndexed` prunes
its leaf yet leaves the root digest unchanged. -/
theorem Eternity.forget_preserves_hash_witness :
    Eternity.forget sIndexed 7 = .ok (sIndexedForgotten, true) ∧
      sIndexedForgotten.hash = sIndexed.hash :=
  ⟨rfl, Eternity.forget_preserves_hash sIndexed 7 sIndexedForgotten true rfl⟩

/-- Claim C9: forgetting a value absent from the item index returns
`false` and leaves the whole state (all three indices and the inner
tree, hence `hash()` and `len()`) unchanged. -/
theorem Eternity.forget_absent (s : Eternity) (v : Fq)
    (h : s.item_index v = none) :
    Eternity.forget s v = .ok (s, false) := by
    unfold Eternity.forget
    rw [h]

/-- Witness for claim C9: forgetting an unknown value on the empty
eternity. -/
theorem Eternity.forget_absent_witness :
    Eternity.forget Eternity.new 5 = .ok (Eternity.new, false) :=
  Eternity.forget_absent Eternity.new 5 rfl

/-- Claim C10: the middle summand of `len()` is shifted in 32-bit
arithmetic before widening, so when the rightmost (focused) epoch is
pruned to a hash the `u32::MAX` sentinel contributes exactly
`0xFFFF0000 = 2 ^ 32 - 2 ^ 16`, its high 16 bits discarded by the
truncation modulo `2 ^ 32`. -/
theorem Eternity.len_pruned_focus_truncates (s : Eternity) (h : Hash)
    (hfoc : s.inner.getLast? = some (.hash h)) :
    Eternity.len s = s.inner.length * 2 ^ 32 + (2 ^ 32 - 2 ^ 16) := by
    unfold Eternity.len
    rw [hfoc]
    norm_num [u32MAX]

/-- Witness for claim C10 at a concrete eternity with a pruned open
epoch. -/
theorem Eternity.len_pruned_focus_truncates_witness :
    sPrunedOpen.inner.getLast? = some (.hash (Hash.node [])) ∧
      Eternity.len sPrunedOpen = sPrunedOpen.inner.length * 2 ^ 32 + (2 ^ 32 - 2 ^ 16) :=
  ⟨rfl, Eternity.len_pruned_focus_truncates sPrunedOpen (Hash.node []) rfl⟩

/-- A block holding the single item `7` at position `0`. -/
def exampleBlock : Block :=
  ⟨[Insert.keep 7], fun k => if k = 7 then some 0 else none⟩

/-- The epoch obtained by inserting `exampleBlock` (kept) into a fresh
epoch; it contains the value `7` at composite position `(0, 0)`. -/
def exampleEpoch : Epoch := (Epoch.insert Epoch.new (.keep exampleBlock)).1

/-- The eternity obtained by inserting `exampleEpoch` (kept) into a
fresh eternity. -/
def sAfterInsert : Eternity := (Eternity.insert Eternity.new (.keep exampleEpoch)).1

/-- Claim C6: a successful insert of a kept epoch records, for every
value of the epoch's item index, the pre-insertion length of the inner
tree into the eternity's epoch index, and merges the epoch's block and
item index entries verbatim (positions unchanged) into the eternity's
block and item indices. -/
theorem Eternity.insert_keep_merges (s : Eternity) (e : Epoch) (s' : Eternity)
    (h : Eternity.insert s (.keep e) = (s', .ok ())) :
    (∀ v, (e.item_index v).isSome → s'.epoch_index v = some s.inner.length) ∧
      (∀ v p, e.block_index v = some p → s'.block_index v = some p) ∧
      (∀ v p, e.item_index v = some p → s'.item_index v = some p) := by
    simp only [Eternity.insert, tierInsert] at h
    split at h
    · simp at h
    · simp only [Prod.mk.injEq] at h
      obtain ⟨hstate, -⟩ := h
      subst hstate
      refine ⟨fun v hv => ?_, fun v p hp => ?_, fun v p hp => ?_⟩
      · simp [hv]
      · simp [extendMap, hp]
      · simp [extendMap, hp]

/-- Witness for claim C6: inserting `exampleEpoch` into the empty
eternity indexes the value `7` at slot `0` of every index. -/
theorem Eternity.insert_keep_merges_witness :
    Eternity.insert Eternity.new (.keep exampleEpoch) = (sAfterInsert, .ok ()) ∧
      sAfterInsert.epoch_index 7 = some Eternity.new.inner.length ∧
      sAfterInsert.block_index 7 = some 0 ∧
      sAfterInsert.item_index 7 = some 0 := by
    have h := Eternity.insert_keep_merges Eternity.new exampleEpoch sAfterInsert rfl
    exact ⟨rfl, h.1 7 rfl, h.2.1 7 0 rfl, h.2.2 7 0 rfl⟩

/-- Claim C7: inserting a pruned epoch (`Insert::Hash`) into a
non-full eternity succeeds, adds no entry to any of the three index
maps, and `witness` afterwards returns `None` for every value that is
not indexed from before — in particular for every value the
summarized epoch would have contained, since a summarized epoch is
never indexed. -/
theorem Eternity.insert_hash_never_indexes (s : Eternity) (h : Hash)
    (hcap : s.inner.length < tierCapacity) :
    (Eternity.insert s (.hash h)).2 = .ok () ∧
      (Eternity.insert s (.hash h)).1.epoch_index = s.epoch_index ∧
      (Eternity.insert s (.hash h)).1.block_index = s.block_index ∧
      (Eternity.insert s (.hash h)).1.item_index = s.item_index ∧
      (∀ v, s.epoch_index v = none →
        Eternity.witness (Eternity.insert s (.hash h)).1 v = .ok none) := by
    have hmaps :
        (Eternity.insert s (.hash h)).1.epoch_index = s.epoch_index ∧
          (Eternity.insert s (.hash h)).1.block_index = s.block_index ∧
          (Eternity.insert s (.hash h)).1.item_index = s.item_index := by
      simp only [Eternity.insert, tierInsert, if_pos hcap]
      refine ⟨funext fun k => ?_, funext fun k => ?_, funext fun k => ?_⟩ <;>
        simp [emptyMap, extendMap]
    refine ⟨?_, hmaps.1, hmaps.2.1, hmaps.2.2, fun v hv => ?_⟩
    · simp [Eternity.insert, tierInsert, if_pos hcap]
    · simp only [Eternity.witness, hmaps.1, hv]

/-- Witness for claim C7: inserting a summary digest into the empty
eternity indexes nothing and witnesses nothing. -/
theorem Eternity.insert_hash_never_indexes_witness :
    (Eternity.insert Eternity.new (.hash (Hash.node []))).2 = .ok () ∧
      Eternity.witness (Eternity.insert Eternity.new (.hash (Hash.node []))).1 5 = .ok none := by
    have h := Eternity.insert_hash_never_indexes Eternity.new (Hash.node []) (by decide)
    exact ⟨h.1, h.2.2.2.2 5 rfl⟩

/-- `Epoch::insert` preserves the epoch-level index-completeness
invariant, whatever block is inserted. -/
theorem Epoch.insert_preserves_INV1 (e : Epoch) (b : Insert Block)
    (hINV : EpochINV1 e) : EpochINV1 (Epoch.insert e b).1 := by
    simp only [Epoch.insert, tierInsert]
    cases b with
    | hash h =>
      split
      · exact hINV
      · intro v hv
        simp only [extendMap, emptyMap] at hv ⊢
        simp [hINV v hv]
    | keep bl =>
      split
      · exact hINV
      · intro v hv
        simp only [extendMap] at hv ⊢
        by_cases hbv : (bl.item_index v).isSome
        · simp [hbv]
        · have hbv' : bl.item_index v = none := Option.not_isSome_iff_eq_none.mp hbv
          rw [hbv'] at hv
          rw [if_neg hbv]
          simp only [] at hv
          exact hINV v hv

/-- `Epoch::forget` preserves the epoch-level index-completeness
invariant. -/
theorem Epoch.forget_keeps_INV1 (e : Epoch) (v : Fq) (r : Epoch × Bool)
    (hINV : EpochINV1 e) (h : Epoch.forget e v = .ok r) : EpochINV1 r.1 := by
    unfold Epoch.forget at h
    split at h
    · split at h
      · exact absurd h (by simp)
      · simp only [Except.ok.injEq] at h
        subst h
        intro w hw
        simp only [removeKey] at hw ⊢
        split at hw
        · simp at hw
        · rename_i hne
          rw [if_neg hne]
          exact hINV w hw
    · simp only [Except.ok.injEq] at h
      subst h
      exact hINV

/-- Every epoch reachable through the epoch API satisfies the
epoch-level index-completeness invariant. -/
theorem EpochReachable.INV1 {e : Epoch} (h : EpochReachable e) : EpochINV1 e := by
    induction h with
    | new => intro v hv; simp [Epoch.new, emptyMap] at hv
    | insert hr heq ih => exact heq ▸ Epoch.insert_preserves_INV1 _ _ ih
    | forget hr heq heq' ih => exact heq' ▸ Epoch.forget_keeps_INV1 _ _ _ ih heq

/-- `Eternity::insert` of a pruned epoch preserves the eternity-level
index-completeness invariant. -/
theorem Eternity.insert_hash_preserves_INV1 (s : Eternity) (h : Hash)
    (hINV : EternityINV1 s) : EternityINV1 (Eternity.insert s (.hash h)).1 := by
    simp only [Eternity.insert, tierInsert]
    split
    · exact hINV
    · intro v hv
      simp only [extendMap, emptyMap] at hv ⊢
      exact ⟨(hINV v hv).1, by simp [(hINV v hv).2]⟩

/-- `Eternity::insert` of a kept epoch that itself satisfies the
epoch-level invariant preserves the eternity-level invariant. -/
theorem Eternity.insert_keep_preserves_INV1 (s : Eternity) (e : Epoch)
    (hINV : EternityINV1 s) (hE : EpochINV1 e) :
    EternityINV1 (Eternity.insert s (.keep e)).1 := by
    simp only [Eternity.insert, tierInsert]
    split
    · exact hINV
    · intro v hv
      simp only [extendMap] at hv ⊢
      by_cases hev : (e.item_index v).isSome
      · have hb := hE v hev
        obtain ⟨q, hq⟩ := Option.isSome_iff_exists.mp hb
        exact ⟨by simp [hq], by simp [hev]⟩
      · have hev' : e.item_index v = none := Option.not_isSome_iff_eq_none.mp hev
        rw [hev'] at hv
        simp only [] at hv
        have hs := hINV v hv
        refine ⟨?_, by rw [if_neg hev]; exact hs.2⟩
        by_cases hbv : (e.block_index v).isSome
        · obtain ⟨q, hq⟩ := Option.isSome_iff_exists.mp hbv
          simp [hq]
        · have hbv' : e.block_index v = none := Option.not_isSome_iff_eq_none.mp hbv
          simp [hbv', hs.1]

/-- `Eternity::forget` preserves the eternity-level
index-completeness invariant. -/
theorem Eternity.forget_preserves_INV1 (s : Eternity) (v : Fq) (r : Eternity × Bool)
    (hINV : EternityINV1 s) (h : Eternity.forget s v = .ok r) : EternityINV1 r.1 := by
    unfold Eternity.forget at h
    split at h
    · split at h
      · exact absurd h (by simp)
      · split at h
        · exact absurd h (by simp)
        · simp only [Except.ok.injEq] at h
          subst h
          intro w hw
          simp only [removeKey] at hw ⊢
          split at hw
          · simp at hw
          · rename_i hne
            rw [if_neg hne, if_neg hne]
            exact hINV w hw
    · simp only [Except.ok.injEq] at h
      subst h
      exact hINV

/-- Claim C5: index completeness (INV1) — every value present in the
item index is simultaneously present in the block index and the epoch
index — holds in every eternity state reachable through the public
API, and each mutating operation (`insert` of a pruned or of an
invariant-respecting kept epoch, and `forget`) preserves it; `witness`,
`len` and `hash` do not mutate the state at all. -/
theorem Eternity.INV1_reachable_and_preserved :
    (∀ s, EternityReachable s → EternityINV1 s) ∧
      (∀ s h, EternityINV1 s → EternityINV1 (Eternity.insert s (.hash h)).1) ∧
      (∀ s e, EternityINV1 s → EpochINV1 e → EternityINV1 (Eternity.insert s (.keep e)).1) ∧
      (∀ s v r, EternityINV1 s → Eternity.forget s v = .ok r → EternityINV1 r.1) := by
    refine ⟨fun s hs => ?_, fun s h hINV => Eternity.insert_hash_preserves_INV1 s h hINV,
      fun s e hINV hE => Eternity.insert_keep_preserves_INV1 s e hINV hE,
      fun s v r hINV h => Eternity.forget_preserves_INV1 s v r hINV h⟩
    induction hs with
    | new => intro v hv; simp [Eternity.new, emptyMap] at hv
    | insertHash hr heq ih => exact heq ▸ Eternity.insert_hash_preserves_INV1 _ _ ih
    | insertKeep hr he heq ih =>
      exact heq ▸ Eternity.insert_keep_preserves_INV1 _ _ ih he.INV1
    | forget hr heq heq' ih => exact heq' ▸ Eternity.forget_preserves_INV1 _ _ _ ih heq

/-- Witness for claim C5: the state reached by inserting the
API-built `exampleEpoch` into a fresh eternity satisfies INV1. -/
theorem Eternity.INV1_reachable_and_preserved_witness :
    EternityINV1 sAfterInsert :=
  Eternity.INV1_reachable_and_preserved.1 sAfterInsert
    (EternityReachable.insertKeep EternityReachable.new
      (EpochReachable.insert EpochReachable.new rfl) rfl)

/-- Claim C3: after successfully inserting a kept epoch that holds
the value `v` in a kept block slot (the epoch's indices resolving `v`
to a kept leaf), `witness(v)` returns a proof whose leaf is `v` and
whose authentication path has the full three-tier depth; `forget(v)`
then returns `true`; and afterwards `witness(v)` returns `None`. -/
theorem Eternity.witness_forget_roundtrip (s : Eternity) (e : Epoch) (v : Fq)
    (b i : Nat) (blk : TierItem) (s' : Eternity)
    (hins : Eternity.insert s (.keep e) = (s', .ok ()))
    (hbi : e.block_index v = some b) (hii : e.item_index v = some i)
    (hblk : e.inner[b]? = some (.keep blk)) (hit : blk[i]? = some (.keep v)) :
    ∃ p s'', Eternity.witness s' v = .ok (some p) ∧ p.leaf = v ∧
      p.auth_path.length = 3 ∧
      Eternity.forget s' v = .ok (s'', true) ∧
      Eternity.witness s'' v = .ok none := by
    simp only [Eternity.insert, tierInsert] at hins
    split at hins
    · simp at hins
    · rename_i inner' hinner
      simp only [Prod.mk.injEq] at hins
      obtain ⟨hstate, -⟩ := hins
      have hcap : s.inner.length < tierCapacity := by
        by_contra hc
        rw [if_neg hc] at hinner
        exact absurd hinner (by simp)
      rw [if_pos hcap] at hinner
      simp only [Except.ok.injEq] at hinner
      subst hinner
      have hE : s'.epoch_index v = some s.inner.length := by
        rw [← hstate]; simp [hii]
      have hB : s'.block_index v = some b := by
        rw [← hstate]; simp [extendMap, hbi]
      have hI : s'.item_index v = some i := by
        rw [← hstate]; simp [extendMap, hii]
      have hInner : s'.inner = s.inner ++ [Insert.keep e.inner] := by
        rw [← hstate]
      have htw : tierWitness (s.inner ++ [Insert.keep e.inner]) ⟨s.inner.length, b, i⟩ =
          some ([siblingHashes ((s.inner ++ [Insert.keep e.inner]).map (insertHash tierBlockHash))
                   s.inner.length,
                 siblingHashes (e.inner.map (insertHash tierItemHash)) b,
                 siblingHashes (blk.map (insertHash itemHash)) i], itemHash v) := by
        simp only [tierWitness, List.getElem?_concat_length, hblk, hit]
      refine ⟨⟨⟨s.inner.length, b, i⟩,
               [siblingHashes ((s.inner ++ [Insert.keep e.inner]).map (insertHash tierBlockHash))
                  s.inner.length,
                siblingHashes (e.inner.map (insertHash tierItemHash)) b,
                siblingHashes (blk.map (insertHash itemHash)) i], v⟩,
             ⟨removeKey s'.epoch_index v, removeKey s'.block_index v,
              removeKey s'.item_index v,
              (tierForget s'.inner ⟨s.inner.length, b, i⟩).1⟩, ?_, rfl, rfl, ?_, ?_⟩
      · simp only [Eternity.witness, hE, hB, hI, hInner, htw]
      · simp only [Eternity.forget, hE, hB, hI]
      · simp [Eternity.witness, removeKey]

/-- Witness for claim C3: the roundtrip at the concrete value `7`
inside `exampleEpoch` inserted into the empty eternity. -/
theorem Eternity.witness_forget_roundtrip_witness :
    ∃ p s'', Eternity.witness sAfterInsert 7 = .ok (some p) ∧ p.leaf = 7 ∧
      p.auth_path.length = 3 ∧
      Eternity.forget sAfterInsert 7 = .ok (s'', true) ∧
      Eternity.witness s'' 7 = .ok none :=
  Eternity.witness_forget_roundtrip Eternity.new exampleEpoch 7 0 0 [Insert.keep 7]
    sAfterInsert rfl rfl rfl rfl rfl

/-- The C8 counterexample state: the value `5` is present in the
block index but absent from the epoch and item indices. -/
def sOnlyBlockIndexed : Eternity :=
  ⟨emptyMap, fun k => if k = 5 then some 0 else none, emptyMap, []⟩

/-- A state where `5` is present only in the epoch index. -/
def sOnlyEpochIndexed : Eternity :=
  ⟨fun k => if k = 5 then some 0 else none, emptyMap, emptyMap, []⟩

/-- A state where `5` is present only in the item index. -/
def sOnlyItemIndexed : Eternity :=
  ⟨emptyMap, emptyMap, fun k => if k = 5 then some 0 else none, []⟩

/-- Counterexample to claim C8 as stated: in `sOnlyBlockIndexed` the
value `5` is present in one index (the block index) and absent from
the other two, yet `witness` returns `None` and `forget` returns
`false` — no assertion failure is triggered, because the mismatch is
only fatal when the leading lookup (epoch index for `witness`, item
index for `forget`) succeeds. -/
theorem Eternity.mismatch_without_panic :
    (sOnlyBlockIndexed.block_index 5).isSome = true ∧
      sOnlyBlockIndexed.epoch_index 5 = none ∧
      sOnlyBlockIndexed.item_index 5 = none ∧
      Eternity.witness sOnlyBlockIndexed 5 = .ok none ∧
      Eternity.forget sOnlyBlockIndexed 5 = .ok (sOnlyBlockIndexed, false) :=
  ⟨rfl, rfl, rfl, rfl, rfl⟩

/-- Claim C8 (amended): under the precondition that the indices agree
on membership (a value present in the epoch index or the item index
is present in the other two), `witness` and `forget` always return
normally — the `expect` branches are unreachable; conversely, the
assertion failures are triggered exactly from the leading index: a
value present in the epoch index but missing from the block index (or
present there but missing from the item index) makes `witness` panic,
and a value present in the item index but missing from the block
index (or present there but missing from the epoch index) makes
`forget` panic. -/
theorem Eternity.panic_guard :
    (∀ s v,
        (∀ w, ((s.epoch_index w).isSome →
                 (s.block_index w).isSome ∧ (s.item_index w).isSome) ∧
              ((s.item_index w).isSome →
                 (s.block_index w).isSome ∧ (s.epoch_index w).isSome)) →
        (∃ r, Eternity.witness s v = .ok r) ∧ ∃ r, Eternity.forget s v = .ok r) ∧
      (∀ s v, (s.epoch_index v).isSome → s.block_index v = none →
        Eternity.witness s v =
          .error "if item is present in the epoch index, it must be present in the block index") ∧
      (∀ s v b, (s.epoch_index v).isSome → s.block_index v = some b →
          s.item_index v = none →
        Eternity.witness s v =
          .error "if item is present in block index, it must be present in item index") ∧
      (∀ s v, (s.item_index v).isSome → s.block_index v = none →
        Eternity.forget s v =
          .error "if item index contains item, then block index must contain item") ∧
      (∀ s v b, (s.item_index v).isSome → s.block_index v = some b →
          s.epoch_index v = none →
        Eternity.forget s v =
          .error "if item index contains item, then epoch index must contain item") := by
    refine ⟨fun s v hagree => ⟨?_, ?_⟩, fun s v hE hB => ?_, fun s v b hE hB hI => ?_,
      fun s v hI hB => ?_, fun s v b hI hB hE => ?_⟩
    · cases hep : s.epoch_index v with
      | none => exact ⟨none, by simp [Eternity.witness, hep]⟩
      | some ep =>
        have h1 := (hagree v).1 (by simp [hep])
        obtain ⟨bv, hbv⟩ := Option.isSome_iff_exists.mp h1.1
        obtain ⟨iv, hiv⟩ := Option.isSome_iff_exists.mp h1.2
        cases htw : tierWitness s.inner ⟨ep, bv, iv⟩ with
        | none => exact ⟨none, by simp [Eternity.witness, hep, hbv, hiv, htw]⟩
        | some pr =>
          obtain ⟨ap, lf⟩ := pr
          exact ⟨some ⟨⟨ep, bv, iv⟩, ap, v⟩,
            by simp [Eternity.witness, hep, hbv, hiv, htw]⟩
    · cases hiv : s.item_index v with
      | none => exact ⟨(s, false), by simp [Eternity.forget, hiv]⟩
      | some iv =>
        have h2 := (hagree v).2 (by simp [hiv])
        obtain ⟨bv, hbv⟩ := Option.isSome_iff_exists.mp h2.1
        obtain ⟨ep, hep⟩ := Option.isSome_iff_exists.mp h2.2
        exact ⟨(⟨removeKey s.epoch_index v, removeKey s.block_index v,
                 removeKey s.item_index v,
                 (tierForget s.inner ⟨ep, bv, iv⟩).1⟩, true),
          by simp [Eternity.forget, hiv, hbv, hep]⟩
    · obtain ⟨ep, hep⟩ := Option.isSome_iff_exists.mp hE
      simp [Eternity.witness, hep, hB]
    · obtain ⟨ep, hep⟩ := Option.isSome_iff_exists.mp hE
      simp [Eternity.witness, hep, hB, hI]
    · obtain ⟨iv, hiv⟩ := Option.isSome_iff_exists.mp hI
      simp [Eternity.forget, hiv, hB]
    · obtain ⟨iv, hiv⟩ := Option.isSome_iff_exists.mp hI
      simp [Eternity.forget, hiv, hB, hE]

/-- Witness for claim C8 (amended): the agreement precondition holds
on the empty eternity, where both operations return normally; and the
two leading-index mismatch states do trigger the `expect` failures. -/
theorem Eternity.panic_guard_witness :
    ((∃ r, Eternity.witness Eternity.new 5 = .ok r) ∧
        ∃ r, Eternity.forget Eternity.new 5 = .ok r) ∧
      Eternity.witness sOnlyEpochIndexed 5 =
        .error "if item is present in the epoch index, it must be present in the block index" ∧
      Eternity.forget sOnlyItemIndexed 5 =
        .error "if item index contains item, then block index must contain item" :=
  ⟨Eternity.panic_guard.1 Eternity.new 5
      (fun w => ⟨fun h => by simp [Eternity.new, emptyMap] at h,
                 fun h => by simp [Eternity.new, emptyMap] at h⟩),
    Eternity.panic_guard.2.1 sOnlyEpochIndexed 5 rfl rfl,
    Eternity.panic_guard.2.2.2.1 sOnlyItemIndexed 5 rfl rfl⟩

end Penumbra
